import Mathlib

/-!
Verification of the pylogtrail retention subsystem: a shallow embedding of
the duration parser (`config/retention.py`), the retention policy store,
the retention manager (`retention/manager.py`) and the scheduler decision
(`server/app.py`), together with theorems settling the specification claims.
-/

namespace PyLogTrail

/-! ## Duration parser (`RetentionConfigManager.parse_duration`)

The Python source matches the regular expression
`(?:(\d+)d)?(?:(\d+)h)?(?:(\d+)m)?` against the stripped input with
`re.match`.  Every group is optional, so the match as a whole never fails
and backtracking never changes the outcome: each group `(\d+)X` matches at
the current position exactly when the maximal digit run there is nonempty
and is followed by the literal `X`.  We embed this as three sequential
component matchers. -/

/-- Digit-string to number, as Python `int(...)` on a run of ASCII digits. -/
def natOfDigits (ds : List Char) : Nat :=
  ds.foldl (fun acc c => acc * 10 + (c.toNat - 48)) 0

/-- The whitespace characters removed by Python `str.strip()` (ASCII part). -/
def isPySpace (c : Char) : Bool :=
  c = ' ' || c = '\t' || c = '\n' || c = '\r' || c = '\x0b' || c = '\x0c'

/-- Python `str.strip()`: drop leading and trailing whitespace. -/
def pyStrip (s : List Char) : List Char :=
  ((s.dropWhile isPySpace).reverse.dropWhile isPySpace).reverse

/-- One optional regex group `(?:(\d+)u)?` matched at the current position:
returns the captured number and the rest of the input on a hit, and
`(none, s)` when the group does not participate in the match. -/
def matchComponent (u : Char) (s : List Char) : Option Nat × List Char :=
  let ds := s.takeWhile Char.isDigit
  let rest := s.dropWhile Char.isDigit
  if ds = [] then (none, s)
  else
    match rest with
    | [] => (none, s)
    | c :: rest2 => if c = u then (some (natOfDigits ds), rest2) else (none, s)

namespace RetentionConfigManager

/-- `RetentionConfigManager.parse_duration`.  The `re.match` call cannot
fail (all groups are optional), so the `Invalid duration format` branch of
the source is unreachable; the only error is the zero-total one.  Trailing
input left over after the third group is ignored, as `re.match` ignores it. -/
def parse_duration (duration_str : String) : Except String Nat :=
  let t := pyStrip duration_str.data
  let dres := matchComponent 'd' t
  let hres := matchComponent 'h' dres.2
  let mres := matchComponent 'm' hres.2
  let total_seconds :=
    (dres.1.getD 0) * 24 * 60 * 60 + (hres.1.getD 0) * 60 * 60 + (mres.1.getD 0) * 60
  if total_seconds = 0 then
    Except.error ("Duration must be greater than 0: " ++ duration_str)
  else
    Except.ok total_seconds

end RetentionConfigManager

/-! ## Configuration data model (`config/retention.py` dataclasses) -/

structure TimeBasedConfig where
  enabled : Bool
  duration : String
deriving DecidableEq, Repr

structure CountBasedConfig where
  enabled : Bool
  max_entries : Int
deriving DecidableEq, Repr

structure ExportConfig where
  enabled : Bool
  format : String
  output_directory : String
  include_timestamp : Bool
deriving DecidableEq, Repr

structure ScheduleConfig where
  on_startup : Bool
  interval_hours : Int
  last_execution : Option String
deriving DecidableEq, Repr

structure RetentionConfig where
  time_based : TimeBasedConfig
  count_based : CountBasedConfig
  «export» : ExportConfig
  schedule : ScheduleConfig
deriving DecidableEq, Repr

/-! ## Policy store (`RetentionConfigManager` load/save/get caching)

The YAML file behind the manager is abstracted to the configuration it
denotes: `document = some c` means the file exists and parses (with field
defaults applied) to `c`; `document = none` means the file does not exist.
The `_config` field is the manager's in-memory cache. -/

structure ConfigManagerState where
  document : Option RetentionConfig
  _config : Option RetentionConfig
deriving DecidableEq, Repr

namespace RetentionConfigManager

/-- `RetentionConfigManager._get_default_config`. -/
def _get_default_config : RetentionConfig :=
  { time_based := ⟨true, "7d"⟩
    count_based := ⟨false, 10000⟩
    «export» := ⟨true, "csv_zip", "exports", true⟩
    schedule := ⟨true, 24, none⟩ }

/-- `RetentionConfigManager.load_config`.  When the file does not exist the
defaults are returned and — exactly as in the source — `self._config` is
left untouched; only the file-exists branch assigns `self._config`. -/
def load_config (s : ConfigManagerState) : RetentionConfig × ConfigManagerState :=
  match s.document with
  | none => (_get_default_config, s)
  | some doc => (doc, { s with _config := some doc })

/-- `RetentionConfigManager.save_config`: writes the whole document and
sets the cache. -/
def save_config (config : RetentionConfig) (_s : ConfigManagerState) : ConfigManagerState :=
  { document := some config, _config := some config }

/-- `RetentionConfigManager.get_config`: return the cache if set, else load. -/
def get_config (s : ConfigManagerState) : RetentionConfig × ConfigManagerState :=
  match s._config with
  | none => load_config s
  | some c => (c, s)

/-- `RetentionConfigManager.update_last_execution`. -/
def update_last_execution (timestamp : String) (s : ConfigManagerState) : ConfigManagerState :=
  let res := get_config s
  save_config
    { res.1 with schedule := { res.1.schedule with last_execution := some timestamp } } res.2

end RetentionConfigManager

/-! ## Record store (`db/models.py` `LogEntry`)

Retention inspects only the primary key `id` and the `timestamp` column;
the payload columns (logger name, level, message, …) are opaque to every
operation verified here and are abstracted away.  Timestamps are epoch
seconds; the retention logic only compares them, so the `DOUBLE` column is
embedded as an integer-valued linear order. -/

structure LogEntry where
  id : Nat
  timestamp : Int
deriving DecidableEq, Repr

namespace RetentionManager

open RetentionConfigManager

/-- `RetentionManager._get_time_based_deletion_ids`: ids of records with
`timestamp < now - parse_duration(duration)`; any exception (in particular
a malformed duration) is caught and yields no candidates. -/
def _get_time_based_deletion_ids (store : List LogEntry) (duration : String)
    (now : Int) : List Nat :=
  match parse_duration duration with
  | .error _ => []
  | .ok duration_seconds =>
    let cutoff_timestamp : Int := now - duration_seconds
    (store.filter (fun e => decide (e.timestamp < cutoff_timestamp))).map (·.id)

/-- The SQL `order_by(LogEntry.timestamp)` of the candidate query: a stable
sort of the store by ascending timestamp. -/
def sortByTimestamp (store : List LogEntry) : List LogEntry :=
  store.insertionSort (fun a b => a.timestamp ≤ b.timestamp)

/-- `RetentionManager._get_count_based_deletion_ids`: the
`total_count - max_entries` oldest record ids once the store exceeds
`max_entries`. -/
def _get_count_based_deletion_ids (store : List LogEntry) (max_entries : Int) :
    List Nat :=
  let total_count : Int := store.length
  if total_count ≤ max_entries then []
  else
    let records_to_delete := total_count - max_entries
    ((sortByTimestamp store).take records_to_delete.toNat).map (·.id)

/-- `range(0, len(record_ids), batch_size)` slicing: the id list cut into
consecutive chunks of `n` (the last one possibly shorter).  Fuel-driven so
that the definition reduces in the kernel; `fuel = l.length` suffices. -/
def chunkListAux (n : Nat) : Nat → List Nat → List (List Nat)
  | 0, _ => []
  | _, [] => []
  | fuel + 1, l => l.take n :: chunkListAux n fuel (l.drop n)

def chunkList (n : Nat) (l : List Nat) : List (List Nat) :=
  chunkListAux n l.length l

/-- One `session.query(...).filter(id.in_(batch)).delete()` plus the
following `commit`, iterated over the batches.  `failAt = some i` models the
database raising while deleting batch `i`: the source's `except` block rolls
that batch back and returns `0`, with the previously committed batches left
applied to the store.  `i` is the index of the batch in the loop, `acc` the
running `total_deleted`. -/
def deleteLoop (failAt : Option Nat) :
    List LogEntry → List (List Nat) → Nat → Nat → Nat × List LogEntry
  | store, [], _, acc => (acc, store)
  | store, batch_ids :: rest, i, acc =>
    if failAt = some i then (0, store)
    else
      let deleted_count := (store.filter (fun e => decide (e.id ∈ batch_ids))).length
      let store2 := store.filter (fun e => !decide (e.id ∈ batch_ids))
      deleteLoop failAt store2 rest (i + 1) (acc + deleted_count)

/-- `RetentionManager._delete_records`: batched best-effort deletion with
batch size 1000. -/
def _delete_records (store : List LogEntry) (record_ids : List Nat)
    (failAt : Option Nat) : Nat × List LogEntry :=
  if record_ids = [] then (0, store)
  else deleteLoop failAt store (chunkList 1000 record_ids) 0 0

/-- `RetentionManager._export_records`, which returns the path of the ZIP
archive it writes.  `timestamp_fmt` is `datetime.now().strftime("%Y%m%d_%H%M%S")`,
the rendering of the wall clock at the moment of the pass; the CSV payload
and disk I/O (whose failure would yield `none`) are outside the claims and
are not modelled. -/
def _export_records (record_ids : List Nat) (export_config : ExportConfig)
    (timestamp_fmt : String) : Option String :=
  if record_ids = [] then none
  else
    let timestamp_str := if export_config.include_timestamp then timestamp_fmt else ""
    let base_name :=
      if timestamp_str ≠ "" then "deleted_logs_" ++ timestamp_str else "deleted_logs"
    some (export_config.output_directory ++ "/" ++ base_name ++ ".zip")

/-- A flat file system keyed by path, for the effect of
`zipfile.ZipFile(zip_filename, "w", ...)`: mode `"w"` truncates, so writing
replaces whatever was previously stored at that path. -/
def write_file (fs : String → Option String) (path content : String) :
    String → Option String :=
  fun p => if p = path then some content else fs p

/-- Lines 40-42 of `manager.py`: the time-based candidate list. -/
def time_candidates (config : RetentionConfig) (store : List LogEntry)
    (now : Int) : List Nat :=
  if config.time_based.enabled then
    _get_time_based_deletion_ids store config.time_based.duration now
  else []

/-- Lines 44-47 of `manager.py`: the count-based candidate list. -/
def count_candidates (config : RetentionConfig) (store : List LogEntry) : List Nat :=
  if config.count_based.enabled then
    _get_count_based_deletion_ids store config.count_based.max_entries
  else []

/-- Line 50 of `manager.py`:
`deletion_ids = set(time_based_ids) | set(count_based_ids)`. -/
def deletion_ids (config : RetentionConfig) (store : List LogEntry)
    (now : Int) : Finset Nat :=
  (time_candidates config store now).toFinset ∪ (count_candidates config store).toFinset

/-- The result dictionary of `cleanup_logs`.  The `dry_run` key is present
only in the non-empty branch of the source, hence the `Option`. -/
structure CleanupResult where
  records_deleted : Nat
  export_file : Option String
  time_based_deletions : Nat
  count_based_deletions : Nat
  dry_run : Option Bool
deriving DecidableEq, Repr

/-- `RetentionManager.cleanup_logs`.  `now` is the wall clock of the pass
(`time.time()`), `timestamp_fmt` its `strftime` rendering used for the
export file name, and `failAt` the batch-failure oracle of
`_delete_records`.  Returns the result dictionary and the store after the
pass. -/
def cleanup_logs (dry_run : Bool) (config : RetentionConfig)
    (store : List LogEntry) (now : Int) (timestamp_fmt : String)
    (failAt : Option Nat) : CleanupResult × List LogEntry :=
  let time_based_ids := time_candidates config store now
  let count_based_ids := count_candidates config store
  let ids : Finset Nat := deletion_ids config store now
  if ids = ∅ then
    ({ records_deleted := 0, export_file := none, time_based_deletions := 0,
       count_based_deletions := 0, dry_run := none }, store)
  else
    let export_file :=
      if config.«export».enabled && !dry_run then
        _export_records (ids.sort (· ≤ ·)) config.«export» timestamp_fmt
      else none
    if dry_run then
      ({ records_deleted := ids.card, export_file := export_file,
         time_based_deletions := time_based_ids.length,
         count_based_deletions := count_based_ids.length,
         dry_run := some true }, store)
    else
      let del := _delete_records store (ids.sort (· ≤ ·)) failAt
      ({ records_deleted := del.1, export_file := export_file,
         time_based_deletions := time_based_ids.length,
         count_based_deletions := count_based_ids.length,
         dry_run := some false }, del.2)

/-- The `statistics` part of the `get_retention_info` dictionary.  The
`config` echo of the source dictionary merely copies fields of the input
configuration and is not modelled; `oldest_record`/`newest_record` keep the
raw timestamps (`datetime.fromtimestamp(...).isoformat()` rendering
abstracted). -/
structure RetentionStatistics where
  total_records : Nat
  oldest_record : Option Int
  newest_record : Option Int
  records_to_delete_time_based : Nat
  records_to_delete_count_based : Int
  total_records_to_delete : Nat
deriving DecidableEq, Repr

/-- `RetentionManager.get_retention_info`.  Note that — unlike candidate
selection inside `cleanup_logs` — the `parse_duration` call on line 223 of
`manager.py` is not wrapped in a `try`, so a malformed duration raises out
of `get_retention_info`; this is modelled by the `Except`. -/
def get_retention_info (config : RetentionConfig) (store : List LogEntry)
    (now : Int) : Except String RetentionStatistics :=
  let total_records := store.length
  let oldest_record := (store.map (·.timestamp)).min?
  let newest_record := (store.map (·.timestamp)).max?
  let tbd : Except String Nat :=
    if config.time_based.enabled then
      (RetentionConfigManager.parse_duration config.time_based.duration).map
        (fun duration_seconds =>
          (store.filter
            (fun e => decide (e.timestamp < now - (duration_seconds : Int)))).length)
    else .ok 0
  tbd.map (fun time_based_deletions =>
    let count_based_deletions : Int :=
      if config.count_based.enabled &&
          decide ((total_records : Int) > config.count_based.max_entries) then
        (total_records : Int) - config.count_based.max_entries
      else 0
    { total_records := total_records
      oldest_record := oldest_record
      newest_record := newest_record
      records_to_delete_time_based := time_based_deletions
      records_to_delete_count_based := count_based_deletions
      total_records_to_delete := (deletion_ids config store now).card })

end RetentionManager

/-! ## Scheduler decision (`server/app.py` `retention_background_thread`)

One wake cycle of the background loop decides whether to start a cleanup
pass.  `parse_ts` abstracts `datetime.fromisoformat` on the stored
`last_execution` string (UTC-normalised, as epoch seconds): `none` models a
raised parse exception.  `now_utc` is in epoch seconds. -/

def should_run (last_execution : Option String) (parse_ts : String → Option Int)
    (now_utc : Int) (interval_hours : Int) : Bool :=
  match last_execution with
  | none => true
  | some s =>
    match parse_ts s with
    | none => true
    | some last =>
      let hours_since_last : ℚ := ((now_utc - last : Int) : ℚ) / 3600
      decide (hours_since_last ≥ (interval_hours : ℚ))

/-! ## Lemmas about the duration parser -/

/-- A string of the duration grammar, for stating the grammar claims: one
optional `<digits><unit>` component. -/
def renderComp (u : Char) : Option (List Char) → List Char
  | none => []
  | some ds => ds ++ [u]

/-- `<digits>d<digits>h<digits>m` with each component optional. -/
def renderDuration (d h m : Option (List Char)) : List Char :=
  renderComp 'd' d ++ (renderComp 'h' h ++ renderComp 'm' m)

/-- A well-formed optional digit component: if present, a nonempty run of
ASCII digits. -/
def DigitComp (o : Option (List Char)) : Prop :=
  ∀ ds, o = some ds → ds ≠ [] ∧ ∀ x ∈ ds, x.isDigit = true

/-- The value of the components, as the spec computes it. -/
def durationValue (d h m : Option (List Char)) : Nat :=
  (d.map natOfDigits).getD 0 * 86400 + (h.map natOfDigits).getD 0 * 3600 +
    (m.map natOfDigits).getD 0 * 60

/-- The input that remains for the `u` group after earlier groups: either
its head is not a digit (the group is skipped outright, including the empty
rest), or it starts with a digit run followed by a unit letter other than
`u` (the group fails after scanning the run and consumes nothing). -/
def GrammarTail (u : Char) (rest : List Char) : Prop :=
  (∀ c, rest.head? = some c → c.isDigit = false) ∨
  ∃ es c tail, rest = es ++ c :: tail ∧ (∀ x ∈ es, x.isDigit = true) ∧
    c.isDigit = false ∧ c ≠ u

/-! ## Orderings and concrete fixtures used by the theorems -/

instance : IsTotal LogEntry (fun a b => a.timestamp ≤ b.timestamp) :=
  ⟨fun a b => le_total a.timestamp b.timestamp⟩

instance : IsTrans LogEntry (fun a b => a.timestamp ≤ b.timestamp) :=
  ⟨fun _ _ _ hab hbc => le_trans hab hbc⟩

/-- A document differing from the synthesized defaults, standing for a
configuration file created on disk between two `get_config` calls. -/
def altDocConfig : RetentionConfig :=
  { RetentionConfigManager._get_default_config with count_based := ⟨true, 5⟩ }

/-- A configuration with only count-based retention enabled, at
`max_entries = 1`. -/
def cfgCountOnly : RetentionConfig :=
  ⟨⟨false, "7d"⟩, ⟨true, 1⟩, ⟨false, "csv_zip", "exports", true⟩, ⟨true, 24, none⟩⟩

/-- A configuration whose time-based duration string is malformed. -/
def cfgBadDuration : RetentionConfig :=
  ⟨⟨true, "garbage"⟩, ⟨false, 10000⟩, ⟨false, "csv_zip", "exports", true⟩,
    ⟨true, 24, none⟩⟩

lemma takeWhile_digits_append (ds : List Char) (c : Char) (rest : List Char)
    (hds : ∀ x ∈ ds, x.isDigit = true) (hc : c.isDigit = false) :
    (ds ++ c :: rest).takeWhile Char.isDigit = ds ∧
    (ds ++ c :: rest).dropWhile Char.isDigit = c :: rest := by
  induction ds with
  | nil => simp [List.takeWhile, List.dropWhile, hc]
  | cons a as ih =>
    have ha : a.isDigit = true := hds a (by simp)
    have has := ih (fun x hx => hds x (by simp [hx]))
    simp [List.takeWhile, List.dropWhile, ha, has.1, has.2]

lemma matchComponent_hit (u : Char) (ds rest : List Char) (hne : ds ≠ [])
    (hds : ∀ x ∈ ds, x.isDigit = true) (hu : u.isDigit = false) :
    matchComponent u (ds ++ u :: rest) = (some (natOfDigits ds), rest) := by
  obtain ⟨h1, h2⟩ := takeWhile_digits_append ds u rest hds hu
  simp [matchComponent, h1, h2, hne]

lemma matchComponent_miss_unit (u : Char) (ds : List Char) (c : Char)
    (rest : List Char) (hds : ∀ x ∈ ds, x.isDigit = true)
    (hc : c.isDigit = false) (hcu : c ≠ u) :
    matchComponent u (ds ++ c :: rest) = (none, ds ++ c :: rest) := by
  obtain ⟨h1, h2⟩ := takeWhile_digits_append ds c rest hds hc
  by_cases hne : ds = []
  · subst hne; simp [matchComponent, List.takeWhile, hc]
  · simp [matchComponent, h1, h2, hne, hcu]

lemma matchComponent_miss_head (u : Char) (s : List Char)
    (h : ∀ c, s.head? = some c → c.isDigit = false) :
    matchComponent u s = (none, s) := by
  cases s with
  | nil => rfl
  | cons c rest =>
    have hc := h c rfl
    simp [matchComponent, List.takeWhile, hc]

lemma matchComponent_render (u : Char) (hu : u.isDigit = false)
    (o : Option (List Char)) (ho : DigitComp o) (rest : List Char)
    (hrest : GrammarTail u rest) :
    matchComponent u (renderComp u o ++ rest) = (o.map natOfDigits, rest) := by
  cases o with
  | none =>
    simp only [renderComp, List.nil_append, Option.map_none]
    rcases hrest with h | ⟨es, c, tail, rfl, hes, hc, hcu⟩
    · exact matchComponent_miss_head u rest h
    · exact matchComponent_miss_unit u es c tail hes hc hcu
  | some ds =>
    obtain ⟨hne, hds⟩ := ho ds rfl
    have : renderComp u (some ds) ++ rest = ds ++ u :: rest := by
      simp [renderComp]
    rw [this, matchComponent_hit u ds rest hne hds hu]
    rfl

lemma dropWhile_eq_self_of_head (p : Char → Bool) (l : List Char)
    (h : ∀ c ∈ l, p c = false) : l.dropWhile p = l := by
  cases l with
  | nil => rfl
  | cons a t => simp [List.dropWhile, h a (by simp)]

lemma pyStrip_eq_self (s : List Char) (h : ∀ c ∈ s, isPySpace c = false) :
    pyStrip s = s := by
  rw [pyStrip, dropWhile_eq_self_of_head _ _ h,
    dropWhile_eq_self_of_head _ _ (fun c hc => h c (List.mem_reverse.mp hc)),
    List.reverse_reverse]

lemma isPySpace_eq_false_of_isDigit (c : Char) (h : c.isDigit = true) :
    isPySpace c = false := by
  have h1 : c ≠ ' ' := by rintro rfl; exact absurd h (by decide)
  have h2 : c ≠ '\t' := by rintro rfl; exact absurd h (by decide)
  have h3 : c ≠ '\n' := by rintro rfl; exact absurd h (by decide)
  have h4 : c ≠ '\r' := by rintro rfl; exact absurd h (by decide)
  have h5 : c ≠ '\x0b' := by rintro rfl; exact absurd h (by decide)
  have h6 : c ≠ '\x0c' := by rintro rfl; exact absurd h (by decide)
  simp [isPySpace, h1, h2, h3, h4, h5, h6]

lemma renderComp_no_space (u : Char) (hu : isPySpace u = false)
    (o : Option (List Char)) (ho : DigitComp o) :
    ∀ c ∈ renderComp u o, isPySpace c = false := by
  cases o with
  | none => simp [renderComp]
  | some ds =>
    obtain ⟨-, hds⟩ := ho ds rfl
    intro c hc
    rcases List.mem_append.mp hc with h | h
    · exact isPySpace_eq_false_of_isDigit c (hds c h)
    · simp only [List.mem_singleton] at h; subst h; exact hu

lemma grammarTail_of_comps (u : Char) (h m : Option (List Char))
    (hh : DigitComp h) (hm : DigitComp m) (hhu : 'h' ≠ u) (hmu : 'm' ≠ u)
    (t : List Char) (ht : ∀ c, t.head? = some c → c.isDigit = false) :
    GrammarTail u (renderComp 'h' h ++ (renderComp 'm' m ++ t)) := by
  cases h with
  | some hs =>
    obtain ⟨-, hds⟩ := hh hs rfl
    right
    exact ⟨hs, 'h', renderComp 'm' m ++ t, by simp [renderComp], hds, by decide, hhu⟩
  | none =>
    simp only [renderComp, List.nil_append]
    cases m with
    | some ms =>
      obtain ⟨-, hds⟩ := hm ms rfl
      right
      exact ⟨ms, 'm', t, by simp [renderComp], hds, by decide, hmu⟩
    | none => left; simpa [renderComp] using ht

/-- Full behaviour of `parse_duration` on a grammar string followed by
trailing input that starts with a non-digit (possibly empty): the trailing
part is ignored and the result is the component sum, or the zero error. -/
lemma parse_duration_render (d h m : Option (List Char))
    (hd : DigitComp d) (hh : DigitComp h) (hm : DigitComp m)
    (t : List Char) (ht : ∀ c, t.head? = some c → c.isDigit = false)
    (htw : ∀ c ∈ t, isPySpace c = false) :
    RetentionConfigManager.parse_duration (String.mk (renderDuration d h m ++ t)) =
      if durationValue d h m = 0 then
        Except.error ("Duration must be greater than 0: " ++
          String.mk (renderDuration d h m ++ t))
      else Except.ok (durationValue d h m) := by
  have hstrip : pyStrip (renderDuration d h m ++ t) = renderDuration d h m ++ t := by
    apply pyStrip_eq_self
    intro c hc
    rcases List.mem_append.mp hc with hc | hc
    · rcases List.mem_append.mp hc with hc | hc
      · exact renderComp_no_space 'd' (by decide) d hd c hc
      · rcases List.mem_append.mp hc with hc | hc
        · exact renderComp_no_space 'h' (by decide) h hh c hc
        · exact renderComp_no_space 'm' (by decide) m hm c hc
    · exact htw c hc
  have hassoc : renderDuration d h m ++ t =
      renderComp 'd' d ++ (renderComp 'h' h ++ (renderComp 'm' m ++ t)) := by
    simp [renderDuration, List.append_assoc]
  have h1 : matchComponent 'd' (renderDuration d h m ++ t) =
      (d.map natOfDigits, renderComp 'h' h ++ (renderComp 'm' m ++ t)) := by
    rw [hassoc]
    exact matchComponent_render 'd' (by decide) d hd _
      (grammarTail_of_comps 'd' h m hh hm (by decide) (by decide) t ht)
  have h2 : matchComponent 'h' (renderComp 'h' h ++ (renderComp 'm' m ++ t)) =
      (h.map natOfDigits, renderComp 'm' m ++ t) := by
    apply matchComponent_render 'h' (by decide) h hh
    cases m with
    | some ms =>
      obtain ⟨-, hds⟩ := hm ms rfl
      right
      exact ⟨ms, 'm', t, by simp [renderComp], hds, by decide, by decide⟩
    | none => left; simpa [renderComp] using ht
  have h3 : matchComponent 'm' (renderComp 'm' m ++ t) = (m.map natOfDigits, t) :=
    matchComponent_render 'm' (by decide) m hm t (Or.inl ht)
  show RetentionConfigManager.parse_duration ⟨renderDuration d h m ++ t⟩ = _
  rw [RetentionConfigManager.parse_duration]
  simp only [String.data]
  rw [hstrip, h1]
  simp only [h2, h3]
  have hval : (d.map natOfDigits).getD 0 * 24 * 60 * 60 +
      (h.map natOfDigits).getD 0 * 60 * 60 + (m.map natOfDigits).getD 0 * 60 =
      durationValue d h m := by
    unfold durationValue; ring
  rw [hval]

/-! ## Claim C6 -/

/-- C6: the duration parser maps `"7d"` to `604800`, `"2d12h"` to `216000`
and `"45m"` to `2700`; `"0m"`, `""` and `"garbage"` are each rejected; and
in general a string of the grammar `<digits>d<digits>h<digits>m` with each
component optional parses to `days*86400 + hours*3600 + minutes*60`, while
an input with no valid component or an all-zero total is an error. -/
theorem duration_parser_grammar :
    RetentionConfigManager.parse_duration "7d" = .ok 604800 ∧
    RetentionConfigManager.parse_duration "2d12h" = .ok 216000 ∧
    RetentionConfigManager.parse_duration "45m" = .ok 2700 ∧
    (RetentionConfigManager.parse_duration "0m").toOption = none ∧
    (RetentionConfigManager.parse_duration "").toOption = none ∧
    (RetentionConfigManager.parse_duration "garbage").toOption = none ∧
    ∀ d h m : Option (List Char), DigitComp d → DigitComp h → DigitComp m →
      (durationValue d h m ≠ 0 →
        RetentionConfigManager.parse_duration (String.mk (renderDuration d h m)) =
          .ok (durationValue d h m)) ∧
      (durationValue d h m = 0 →
        (RetentionConfigManager.parse_duration
          (String.mk (renderDuration d h m))).toOption = none) := by
  refine ⟨by rfl, by rfl, by rfl, by rfl, by rfl, by rfl, ?_⟩
  intro d h m hd hh hm
  have key := parse_duration_render d h m hd hh hm [] (by simp) (by simp)
  rw [List.append_nil] at key
  constructor
  · intro hne; rw [key, if_neg hne]
  · intro he; rw [key, if_pos he]; rfl

theorem duration_parser_grammar_witness :
    RetentionConfigManager.parse_duration
      (String.mk (renderDuration (some ['7']) none none)) =
      .ok (durationValue (some ['7']) none none) :=
  (duration_parser_grammar.2.2.2.2.2.2 (some ['7']) none none
    (fun ds hds => by cases hds; exact ⟨by decide, by decide⟩)
    (fun ds hds => by cases hds) (fun ds hds => by cases hds)).1 (by decide)

/-! ## Claim C7 -/

/-- C7 counterexample: a valid nonzero duration prefix followed by trailing
characters not part of the grammar does NOT make the parser fail — it
silently succeeds with the value of the prefix; `"7dxyz"` parses to
`604800` and `"2d12hQ"` to `216000`. -/
theorem duration_parser_trailing_cex :
    RetentionConfigManager.parse_duration "7dxyz" = .ok 604800 ∧
    RetentionConfigManager.parse_duration "2d12hQ" = .ok 216000 :=
  ⟨rfl, rfl⟩

/-- C7 amended: for every input consisting of a valid nonzero-duration
grammar prefix followed by trailing characters not in the grammar (first
trailing character not a digit, no whitespace), the parser succeeds with
the value of the prefix, silently ignoring the trailing characters. -/
theorem duration_parser_trailing_amended :
    ∀ d h m : Option (List Char), DigitComp d → DigitComp h → DigitComp m →
    durationValue d h m ≠ 0 →
    ∀ t : List Char, (∀ c, t.head? = some c → c.isDigit = false) →
      (∀ c ∈ t, isPySpace c = false) →
      RetentionConfigManager.parse_duration
        (String.mk (renderDuration d h m ++ t)) = .ok (durationValue d h m) := by
  intro d h m hd hh hm hne t ht htw
  rw [parse_duration_render d h m hd hh hm t ht htw, if_neg hne]

theorem duration_parser_trailing_amended_witness :
    RetentionConfigManager.parse_duration
      (String.mk (renderDuration (some ['7']) none none ++ ['x', 'y', 'z'])) =
      .ok (durationValue (some ['7']) none none) :=
  duration_parser_trailing_amended (some ['7']) none none
    (fun ds hds => by cases hds; exact ⟨by decide, by decide⟩)
    (fun ds hds => by cases hds) (fun ds hds => by cases hds)
    (by decide) ['x', 'y', 'z']
    (fun c hc => by injection hc with h2; subst h2; decide) (by decide)

/-! ## Claim C9 -/

/-- C9 counterexample: in the no-backing-document state, the first
`get_config` returns the synthesized defaults but does NOT populate the
cache, so a subsequent `get_config` re-reads the backing document — if a
document has appeared meanwhile (without any `save_config`), the second
call returns its contents instead of the first call's value. -/
theorem config_cache_cex :
    (RetentionConfigManager.get_config ⟨none, none⟩).2._config = none ∧
    (RetentionConfigManager.get_config ⟨none, none⟩).1 =
      RetentionConfigManager._get_default_config ∧
    (RetentionConfigManager.get_config ⟨some altDocConfig, none⟩).1 = altDocConfig ∧
    altDocConfig ≠ RetentionConfigManager._get_default_config :=
  ⟨rfl, rfl, rfl, by decide⟩

/-- C9 amended: the cache behaviour holds except in the defaults path.  A
`get_config` with a populated cache returns it without touching the
document; with an empty cache and an existing document, it loads and caches
the document; after `save_config c`, `get_config` returns exactly `c`.  But
when no backing document exists, `get_config` synthesizes the defaults
without caching them, so each such call re-reads the document. -/
theorem config_cache_amended :
    (∀ s c, s._config = some c → RetentionConfigManager.get_config s = (c, s)) ∧
    (∀ s c, s._config = none → s.document = some c →
      RetentionConfigManager.get_config s = (c, { s with _config := some c })) ∧
    (∀ s, s._config = none → s.document = none →
      RetentionConfigManager.get_config s =
        (RetentionConfigManager._get_default_config, s)) ∧
    (∀ cfg s,
      RetentionConfigManager.get_config (RetentionConfigManager.save_config cfg s) =
        (cfg, RetentionConfigManager.save_config cfg s)) := by
  refine ⟨?_, ?_, ?_, ?_⟩
  · intro s c h; simp [RetentionConfigManager.get_config, h]
  · intro s c h1 h2
    simp [RetentionConfigManager.get_config, RetentionConfigManager.load_config, h1, h2]
  · intro s h1 h2
    simp [RetentionConfigManager.get_config, RetentionConfigManager.load_config, h1, h2]
  · intro cfg s; rfl

theorem config_cache_amended_witness :
    RetentionConfigManager.get_config
      ⟨none, some RetentionConfigManager._get_default_config⟩ =
      (RetentionConfigManager._get_default_config,
        ⟨none, some RetentionConfigManager._get_default_config⟩) :=
  config_cache_amended.1 _ _ rfl

/-! ## Claim C8 -/

/-- C8: in a wake cycle of the retention background thread, a cleanup pass
is started exactly when `schedule.last_execution` is unset, or when it
fails to parse as a UTC timestamp, or when the elapsed hours since it are
at least `schedule.interval_hours`. -/
theorem scheduler_should_run_iff :
    ∀ (last_execution : Option String) (parse_ts : String → Option Int)
      (now_utc interval_hours : Int),
      should_run last_execution parse_ts now_utc interval_hours = true ↔
        (last_execution = none ∨
          (∃ s, last_execution = some s ∧ parse_ts s = none) ∨
          (∃ s last, last_execution = some s ∧ parse_ts s = some last ∧
            ((now_utc - last : Int) : ℚ) / 3600 ≥ (interval_hours : ℚ))) := by
  intro le pt now ih
  cases le with
  | none => simp [should_run]
  | some s =>
    cases hpt : pt s with
    | none => simp [should_run, hpt]
    | some last => simp [should_run, hpt]

/-! ## Claim C10 -/

/-- C10: with `include_timestamp = false` the export path is the fixed name
`deleted_logs.zip` inside `output_directory`, independent of the exported
records and of the time of the pass, so every export-enabled non-dry-run
pass writes to the same location, and a later write to that path replaces
the earlier archive. -/
theorem export_fixed_path :
    ∀ (cfg : ExportConfig) (fmt₁ fmt₂ : String) (ids₁ ids₂ : List Nat)
      (fs : String → Option String) (c₁ c₂ path : String),
      cfg.include_timestamp = false → ids₁ ≠ [] → ids₂ ≠ [] →
      path = cfg.output_directory ++ "/deleted_logs.zip" →
      RetentionManager._export_records ids₁ cfg fmt₁ = some path ∧
      RetentionManager._export_records ids₂ cfg fmt₂ =
        RetentionManager._export_records ids₁ cfg fmt₁ ∧
      RetentionManager.write_file
        (RetentionManager.write_file fs path c₁) path c₂ path = some c₂ := by
  intro cfg fmt1 fmt2 ids1 ids2 fs c1 c2 path hts h1 h2 hpath
  have hname : cfg.output_directory ++ "/" ++ "deleted_logs" ++ ".zip" = path := by
    rw [hpath, String.append_assoc, String.append_assoc]
    congr 1
  refine ⟨?_, ?_, ?_⟩
  · simp [RetentionManager._export_records, h1, hts, hname]
  · simp [RetentionManager._export_records, h1, h2, hts]
  · simp [RetentionManager.write_file]

theorem export_fixed_path_witness :
    RetentionManager._export_records [1] ⟨true, "csv_zip", "exports", false⟩ "t1" =
      some ("exports" ++ "/deleted_logs.zip") :=
  (export_fixed_path ⟨true, "csv_zip", "exports", false⟩ "t1" "t2" [1] [2]
    (fun _ => none) "c1" "c2" ("exports" ++ "/deleted_logs.zip")
    rfl (by decide) (by decide) rfl).1

/-! ## Lemmas about batched deletion -/

namespace RetentionManager

lemma length_filter_add_length_filter_not {α : Type} (l : List α) (p : α → Bool) :
    (l.filter p).length + (l.filter (fun a => !p a)).length = l.length := by
  induction l with
  | nil => rfl
  | cons a t ih => cases h : p a <;> simp [List.filter, h] <;> omega

lemma length_filter_or {α : Type} (l : List α) (p q : α → Bool) :
    (l.filter (fun a => p a || q a)).length =
      (l.filter p).length + ((l.filter (fun a => !p a)).filter q).length := by
  induction l with
  | nil => rfl
  | cons a t ih =>
    cases hp : p a <;> cases hq : q a <;> simp [List.filter, hp, hq, ih] <;> omega

lemma length_filter_mem_append (store : List LogEntry) (b f : List Nat) :
    (store.filter (fun e => decide (e.id ∈ b ++ f))).length =
      (store.filter (fun e => decide (e.id ∈ b))).length +
        ((store.filter (fun e => !decide (e.id ∈ b))).filter
          (fun e => decide (e.id ∈ f))).length := by
  rw [List.filter_congr (q := fun e => decide (e.id ∈ b) || decide (e.id ∈ f))]
  · exact length_filter_or store _ _
  · intro a _
    by_cases hb : a.id ∈ b <;> by_cases hf : a.id ∈ f <;> simp [hb, hf]

lemma filter_not_mem_append (store : List LogEntry) (b f : List Nat) :
    store.filter (fun e => !decide (e.id ∈ b ++ f)) =
      (store.filter (fun e => !decide (e.id ∈ b))).filter
        (fun e => !decide (e.id ∈ f)) := by
  rw [List.filter_filter]
  apply List.filter_congr
  intro a _
  by_cases hb : a.id ∈ b <;> by_cases hf : a.id ∈ f <;> simp [hb, hf]

lemma chunkListAux_flatten (n : Nat) (hn : 0 < n) :
    ∀ (fuel : Nat) (l : List Nat), l.length ≤ fuel →
      (chunkListAux n fuel l).flatten = l := by
  intro fuel
  induction fuel with
  | zero =>
    intro l hl
    cases l with
    | nil => rfl
    | cons a t => simp at hl
  | succ f ih =>
    intro l hl
    cases l with
    | nil => rfl
    | cons a t =>
      have heq : chunkListAux n (f + 1) (a :: t) =
          (a :: t).take n :: chunkListAux n f ((a :: t).drop n) := rfl
      rw [heq, List.flatten_cons, ih ((a :: t).drop n) (by simp at hl ⊢; omega),
        List.take_append_drop]

lemma chunkListAux_batch_size (n fuel : Nat) :
    ∀ (l : List Nat), ∀ b ∈ chunkListAux n fuel l, b.length ≤ n := by
  induction fuel with
  | zero => intro l b hb; simp [chunkListAux] at hb
  | succ f ih =>
    intro l b hb
    cases l with
    | nil => simp [chunkListAux] at hb
    | cons a t =>
      have heq : chunkListAux n (f + 1) (a :: t) =
          (a :: t).take n :: chunkListAux n f ((a :: t).drop n) := rfl
      rw [heq, List.mem_cons] at hb
      rcases hb with rfl | hb
      · simp [List.length_take]
      · exact ih _ b hb

lemma deleteLoop_none (store : List LogEntry) (bs : List (List Nat)) (i acc : Nat) :
    deleteLoop none store bs i acc =
      (acc + (store.filter (fun e => decide (e.id ∈ bs.flatten))).length,
        store.filter (fun e => !decide (e.id ∈ bs.flatten))) := by
  induction bs generalizing store i acc with
  | nil => simp [deleteLoop]
  | cons b rest ih =>
    rw [show deleteLoop none store (b :: rest) i acc =
        deleteLoop none (store.filter (fun e => !decide (e.id ∈ b))) rest (i + 1)
          (acc + (store.filter (fun e => decide (e.id ∈ b))).length) from rfl,
      ih, List.flatten_cons, length_filter_mem_append, filter_not_mem_append,
      Nat.add_assoc]

lemma delete_records_none (store : List LogEntry) (ids : List Nat) :
    _delete_records store ids none =
      ((store.filter (fun e => decide (e.id ∈ ids))).length,
        store.filter (fun e => !decide (e.id ∈ ids))) := by
  by_cases h : ids = []
  · subst h; simp [_delete_records]
  · rw [_delete_records, if_neg h, deleteLoop_none]
    have hj : (chunkList 1000 ids).flatten = ids :=
      chunkListAux_flatten 1000 (by omega) ids.length ids le_rfl
    rw [show chunkList 1000 ids = chunkListAux 1000 ids.length ids from rfl] at hj
    rw [show chunkList 1000 ids = chunkListAux 1000 ids.length ids from rfl, hj,
      Nat.zero_add]

lemma deleteLoop_fail (k : Nat) (bs : List (List Nat)) :
    ∀ (store : List LogEntry) (i acc : Nat), i ≤ k → k - i < bs.length →
      deleteLoop (some k) store bs i acc =
        (0, store.filter (fun e => !decide (e.id ∈ ((bs.take (k - i)).flatten)))) := by
  induction bs with
  | nil => intro store i acc h1 h2; simp at h2
  | cons b rest ih =>
    intro store i acc h1 h2
    by_cases hik : i = k
    · subst hik
      rw [show deleteLoop (some i) store (b :: rest) i acc = (0, store) from by
        simp [deleteLoop]]
      simp
    · have hik2 : ¬ ((some k : Option Nat) = some i) := by simp [Ne.symm hik]
      rw [show deleteLoop (some k) store (b :: rest) i acc =
          if (some k : Option Nat) = some i then (0, store)
          else deleteLoop (some k)
            (store.filter (fun e => !decide (e.id ∈ b))) rest (i + 1)
            (acc + (store.filter (fun e => decide (e.id ∈ b))).length) from rfl,
        if_neg hik2,
        ih _ (i + 1) _ (by omega) (by simp at h2; omega)]
      have htake : (b :: rest).take (k - i) = b :: rest.take (k - (i + 1)) := by
        have : k - i = (k - (i + 1)) + 1 := by omega
        rw [this, List.take_succ_cons]
      rw [htake, List.flatten_cons, filter_not_mem_append]

lemma time_candidates_subset (config : RetentionConfig) (store : List LogEntry)
    (now : Int) : ∀ x ∈ time_candidates config store now, x ∈ store.map (·.id) := by
  intro x hx
  unfold time_candidates _get_time_based_deletion_ids at hx
  split at hx
  · split at hx
    · simp at hx
    · obtain ⟨e, he, rfl⟩ := List.mem_map.mp hx
      exact List.mem_map.mpr ⟨e, (List.mem_filter.mp he).1, rfl⟩
  · simp at hx

lemma count_candidates_subset (config : RetentionConfig) (store : List LogEntry) :
    ∀ x ∈ count_candidates config store, x ∈ store.map (·.id) := by
  intro x hx
  unfold count_candidates _get_count_based_deletion_ids at hx
  split at hx
  · simp only [] at hx
    split at hx
    · simp at hx
    · obtain ⟨e, he, rfl⟩ := List.mem_map.mp hx
      have he2 : e ∈ sortByTimestamp store := List.mem_of_mem_take he
      exact List.mem_map.mpr ⟨e, (List.mem_insertionSort _).mp he2, rfl⟩
  · simp at hx

lemma deletion_ids_subset (config : RetentionConfig) (store : List LogEntry)
    (now : Int) : ∀ x ∈ deletion_ids config store now, x ∈ store.map (·.id) := by
  intro x hx
  unfold deletion_ids at hx
  rcases Finset.mem_union.mp hx with h | h
  · exact time_candidates_subset config store now x (List.mem_toFinset.mp h)
  · exact count_candidates_subset config store x (List.mem_toFinset.mp h)

lemma deletion_ids_empty_iff (config : RetentionConfig) (store : List LogEntry)
    (now : Int) :
    deletion_ids config store now = ∅ ↔
      time_candidates config store now = [] ∧ count_candidates config store = [] := by
  unfold deletion_ids
  rw [Finset.union_eq_empty, List.toFinset_eq_empty_iff, List.toFinset_eq_empty_iff]

/-- Counting deleted rows: when the stored ids are unique and `F` only
holds ids of stored records, filtering the store by membership in `F`
yields exactly `F.card` records. -/
lemma map_id_filter_mem (F : Finset Nat) (store : List LogEntry) :
    (store.filter (fun e => decide (e.id ∈ F))).map (·.id) =
      (store.map (·.id)).filter (fun x => decide (x ∈ F)) := by
  induction store with
  | nil => rfl
  | cons a t ih => by_cases h : a.id ∈ F <;> simp [List.filter, h, ih]

lemma length_filter_mem_finset (store : List LogEntry) (F : Finset Nat)
    (hnd : (store.map (·.id)).Nodup)
    (hsub : ∀ x ∈ F, x ∈ store.map (·.id)) :
    (store.filter (fun e => decide (e.id ∈ F))).length = F.card := by
  have hmapfilter := map_id_filter_mem F store
  have hlen : (store.filter (fun e => decide (e.id ∈ F))).length =
      ((store.map (·.id)).filter (fun x => decide (x ∈ F))).length := by
    rw [← hmapfilter, List.length_map]
  have hnd2 : ((store.map (·.id)).filter (fun x => decide (x ∈ F))).Nodup :=
    hnd.filter _
  rw [hlen, ← List.toFinset_card_of_nodup hnd2]
  congr 1
  ext x
  simp only [List.mem_toFinset, List.mem_filter, decide_eq_true_eq]
  exact ⟨fun h => h.2, fun h => ⟨hsub x h, h⟩⟩

lemma delete_records_fail (store : List LogEntry) (ids : List Nat) (k : Nat)
    (hne : ids ≠ []) (hk : k < (chunkList 1000 ids).length) :
    _delete_records store ids (some k) =
      (0, store.filter
        (fun e => !decide (e.id ∈ (((chunkList 1000 ids).take k).flatten)))) := by
  rw [_delete_records, if_neg hne,
    deleteLoop_fail k (chunkList 1000 ids) store 0 0 (Nat.zero_le k)
      (by simpa using hk)]
  simp

end RetentionManager

/-! ## Claim C2 -/

/-- C2: for every retention configuration and store state, a dry-run
cleanup leaves the store unchanged, produces no export file, and reports
`records_deleted` equal to the size of the union of the two candidate
identifier sets. -/
theorem cleanup_dry_run_frame :
    ∀ (config : RetentionConfig) (store : List LogEntry) (now : Int)
      (fmt : String) (failAt : Option Nat),
      (RetentionManager.cleanup_logs true config store now fmt failAt).2 = store ∧
      (RetentionManager.cleanup_logs true config store now fmt failAt).1.export_file =
        none ∧
      (RetentionManager.cleanup_logs true config store now fmt failAt).1.records_deleted =
        (RetentionManager.deletion_ids config store now).card := by
  intro config store now fmt failAt
  unfold RetentionManager.cleanup_logs
  by_cases h : RetentionManager.deletion_ids config store now = ∅
  · simp [h]
  · simp [h]

/-! ## Claim C3 -/

/-- C3: in every cleanup pass (dry or not, without store failure) over a
store with unique ids, the deletion set is the set union of the two
candidate sets — `records_deleted` equals the cardinality of the union, a
doubly-matched identifier counting once — while `time_based_deletions` and
`count_based_deletions` report the per-criterion candidate list sizes
before the union, so a doubly-matched identifier is counted in both. -/
theorem cleanup_union_counts :
    ∀ (config : RetentionConfig) (store : List LogEntry) (now : Int)
      (fmt : String) (dry : Bool),
      (store.map (·.id)).Nodup →
      (RetentionManager.cleanup_logs dry config store now fmt none).1.records_deleted =
        (RetentionManager.deletion_ids config store now).card ∧
      (RetentionManager.cleanup_logs dry config store now fmt none).1.time_based_deletions =
        (RetentionManager.time_candidates config store now).length ∧
      (RetentionManager.cleanup_logs dry config store now fmt none).1.count_based_deletions =
        (RetentionManager.count_candidates config store).length := by
  intro config store now fmt dry hnd
  unfold RetentionManager.cleanup_logs
  by_cases h : RetentionManager.deletion_ids config store now = ∅
  · obtain ⟨h1, h2⟩ := (RetentionManager.deletion_ids_empty_iff config store now).mp h
    simp [h, h1, h2]
  · cases dry with
    | true => simp [h]
    | false =>
      simp only [h, if_false, Bool.false_eq_true, reduceIte]
      refine ⟨?_, by trivial, by trivial⟩
      rw [RetentionManager.delete_records_none]
      rw [List.filter_congr (q := fun e =>
        decide (e.id ∈ RetentionManager.deletion_ids config store now))]
      · exact RetentionManager.length_filter_mem_finset store _ hnd
          (RetentionManager.deletion_ids_subset config store now)
      · intro a _
        simp [Finset.mem_sort]

theorem cleanup_union_counts_witness :
    (RetentionManager.cleanup_logs true RetentionConfigManager._get_default_config
      [⟨1, 0⟩] 0 "" none).1.records_deleted =
      (RetentionManager.deletion_ids RetentionConfigManager._get_default_config
        [⟨1, 0⟩] 0).card ∧
    (RetentionManager.cleanup_logs true RetentionConfigManager._get_default_config
      [⟨1, 0⟩] 0 "" none).1.time_based_deletions =
      (RetentionManager.time_candidates RetentionConfigManager._get_default_config
        [⟨1, 0⟩] 0).length ∧
    (RetentionManager.cleanup_logs true RetentionConfigManager._get_default_config
      [⟨1, 0⟩] 0 "" none).1.count_based_deletions =
      (RetentionManager.count_candidates RetentionConfigManager._get_default_config
        [⟨1, 0⟩]).length :=
  cleanup_union_counts RetentionConfigManager._get_default_config [⟨1, 0⟩] 0 "" true
    (by decide)

/-! ## Claim C4 -/

set_option maxRecDepth 10000 in
/-- C4 counterexample: deleting ids `0..1000` (two batches: `0..999` and
`[1000]`) from a store holding records with ids `0` and `1000`, with the
database raising at batch index 1, returns `records_deleted = 0` even
though the previously committed batch 0 deleted the record with id `0` (as
the resulting store shows).  The claim requires the sum of the committed
batches — here `1` — to be returned, so the claim is false on the code:
the `except` handler returns `0`, discarding the prior batches' counts. -/
theorem delete_batch_failure_cex :
    RetentionManager._delete_records [⟨0, 0⟩, ⟨1000, 5⟩] (List.range 1001) (some 1) =
      (0, [⟨1000, 5⟩]) := by decide

/-- C4 amended: deletion proceeds in fixed-size batches of 1000
identifiers, each batch committed independently; if deleting batch `k`
raises, that batch is rolled back and the error logged (not re-raised), the
previously committed batches remain applied to the store, but the function
returns `records_deleted = 0` — the prior batches' counts are discarded
rather than returned. -/
theorem delete_batch_failure_amended :
    ∀ (store : List LogEntry) (ids : List Nat) (k : Nat),
      ids ≠ [] → k < (RetentionManager.chunkList 1000 ids).length →
      (RetentionManager.chunkList 1000 ids).flatten = ids ∧
      (∀ b ∈ RetentionManager.chunkList 1000 ids, b.length ≤ 1000) ∧
      RetentionManager._delete_records store ids (some k) =
        (0, store.filter (fun e =>
          !decide (e.id ∈ (((RetentionManager.chunkList 1000 ids).take k).flatten)))) := by
  intro store ids k h1 h2
  refine ⟨?_, ?_, RetentionManager.delete_records_fail store ids k h1 h2⟩
  · exact RetentionManager.chunkListAux_flatten 1000 (by omega) ids.length ids le_rfl
  · exact fun b hb => RetentionManager.chunkListAux_batch_size 1000 ids.length ids b hb

namespace RetentionManager

lemma filter_sort_mem (store : List LogEntry) (F : Finset Nat) :
    store.filter (fun e => decide (e.id ∈ F.sort (· ≤ ·))) =
      store.filter (fun e => decide (e.id ∈ F)) := by
  apply List.filter_congr
  intro a _
  simp [Finset.mem_sort]

lemma filter_sort_not_mem (store : List LogEntry) (F : Finset Nat) :
    store.filter (fun e => !decide (e.id ∈ F.sort (· ≤ ·))) =
      store.filter (fun e => !decide (e.id ∈ F)) := by
  apply List.filter_congr
  intro a _
  simp [Finset.mem_sort]

/-- The non-dry-run branch of `cleanup_logs` without store failure, fully
evaluated. -/
lemma cleanup_nondry (config : RetentionConfig) (store : List LogEntry)
    (now : Int) (fmt : String) (h : deletion_ids config store now ≠ ∅) :
    cleanup_logs false config store now fmt none =
      ({ records_deleted :=
          (store.filter (fun e => decide (e.id ∈ deletion_ids config store now))).length
         export_file :=
          if config.«export».enabled then
            _export_records ((deletion_ids config store now).sort (· ≤ ·))
              config.«export» fmt
          else none
         time_based_deletions := (time_candidates config store now).length
         count_based_deletions := (count_candidates config store).length
         dry_run := some false },
        store.filter (fun e => !decide (e.id ∈ deletion_ids config store now))) := by
  unfold cleanup_logs
  rw [if_neg h, delete_records_none, filter_sort_mem, filter_sort_not_mem]
  simp

lemma time_candidates_disabled (config : RetentionConfig) (store : List LogEntry)
    (now : Int) (h : config.time_based.enabled = false) :
    time_candidates config store now = [] := by
  simp [time_candidates, h]

lemma count_candidates_of_exceed (config : RetentionConfig) (store : List LogEntry)
    (M K : Nat) (hen : config.count_based.enabled = true)
    (hmax : config.count_based.max_entries = (M : Int))
    (hlen : store.length = M + K) (hK : 0 < K) :
    count_candidates config store = ((sortByTimestamp store).take K).map (·.id) := by
  have hcond : ¬ ((store.length : Int) ≤ config.count_based.max_entries) := by
    rw [hmax, hlen]; push_cast; omega
  have htonat : ((store.length : Int) - config.count_based.max_entries).toNat = K := by
    rw [hmax, hlen]; omega
  unfold count_candidates _get_count_based_deletion_ids
  simp only [hen, if_true, hcond, if_false, htonat]

lemma count_candidates_within (config : RetentionConfig) (store : List LogEntry)
    (M : Nat) (hmax : config.count_based.max_entries = (M : Int))
    (hlen : store.length ≤ M) : count_candidates config store = [] := by
  have hcond : ((store.length : Int) ≤ config.count_based.max_entries) := by
    rw [hmax]; exact_mod_cast hlen
  unfold count_candidates _get_count_based_deletion_ids
  simp only [hcond, if_true]
  split <;> rfl

end RetentionManager

/-! ## Claim C1 -/

/-- C1: with count-based retention enabled at `max_entries = M`, time-based
retention disabled, and a store of `M + K` records (`K > 0`) with unique
ids and pairwise-distinct timestamps, a non-dry-run cleanup deletes exactly
the `K` records with the smallest timestamps, reports
`records_deleted = K`, and leaves `M` records (every deleted record has a
strictly smaller timestamp than every survivor); and with at most `M`
records, the count-based criterion yields no candidates and nothing is
deleted. -/
theorem count_based_retention_correct :
    ∀ (config : RetentionConfig) (store : List LogEntry) (now : Int)
      (fmt : String) (M K : Nat),
      config.time_based.enabled = false →
      config.count_based.enabled = true →
      config.count_based.max_entries = (M : Int) →
      (store.map (·.id)).Nodup →
      store.Pairwise (fun a b => a.timestamp ≠ b.timestamp) →
      store.length = M + K → 0 < K →
      ((RetentionManager.cleanup_logs false config store now fmt none).1.records_deleted
          = K ∧
        (RetentionManager.cleanup_logs false config store now fmt none).2.length = M ∧
        (∀ d ∈ store,
          d ∉ (RetentionManager.cleanup_logs false config store now fmt none).2 →
          ∀ r ∈ (RetentionManager.cleanup_logs false config store now fmt none).2,
            d.timestamp < r.timestamp)) ∧
      (∀ store2 : List LogEntry, store2.length ≤ M →
        RetentionManager.cleanup_logs false config store2 now fmt none =
          (⟨0, none, 0, 0, none⟩, store2)) := by
  intro config store now fmt M K hten hcen hmax hnd hdist hlen hK
  constructor
  · have htime := RetentionManager.time_candidates_disabled config store now hten
    have hcand :=
      RetentionManager.count_candidates_of_exceed config store M K hcen hmax hlen hK
    have hperm : (RetentionManager.sortByTimestamp store).Perm store :=
      List.perm_insertionSort _ store
    have hlen_sorted : (RetentionManager.sortByTimestamp store).length = M + K := by
      rw [hperm.length_eq, hlen]
    have hF : RetentionManager.deletion_ids config store now =
        (((RetentionManager.sortByTimestamp store).take K).map (·.id)).toFinset := by
      unfold RetentionManager.deletion_ids
      rw [htime, hcand]
      simp
    have hnds : ((RetentionManager.sortByTimestamp store).map (·.id)).Nodup :=
      ((hperm.map _).nodup_iff).mpr hnd
    have hcand_nodup : (((RetentionManager.sortByTimestamp store).take K).map
        (·.id)).Nodup :=
      ((List.take_sublist K (RetentionManager.sortByTimestamp store)).map _).nodup hnds
    have hcand_len : (((RetentionManager.sortByTimestamp store).take K).map
        (·.id)).length = K := by
      rw [List.length_map, List.length_take, hlen_sorted]; omega
    have hFcard : (RetentionManager.deletion_ids config store now).card = K := by
      rw [hF, List.toFinset_card_of_nodup hcand_nodup, hcand_len]
    have hFne : RetentionManager.deletion_ids config store now ≠ ∅ := by
      intro h0
      rw [h0, Finset.card_empty] at hFcard
      omega
    have hdel : (store.filter (fun e =>
        decide (e.id ∈ RetentionManager.deletion_ids config store now))).length = K := by
      rw [RetentionManager.length_filter_mem_finset store _ hnd
        (RetentionManager.deletion_ids_subset config store now), hFcard]
    rw [RetentionManager.cleanup_nondry config store now fmt hFne]
    refine ⟨hdel, ?_, ?_⟩
    · show (store.filter (fun e =>
        !decide (e.id ∈ RetentionManager.deletion_ids config store now))).length = M
      have hsplit := RetentionManager.length_filter_add_length_filter_not store
        (fun e => decide (e.id ∈ RetentionManager.deletion_ids config store now))
      rw [hdel, hlen] at hsplit
      omega
    · intro d hd hdn r hr
      have hdid : d.id ∈ RetentionManager.deletion_ids config store now := by
        by_contra hno
        exact hdn (List.mem_filter.mpr ⟨hd, by simp [hno]⟩)
      have hrmem := List.mem_filter.mp hr
      have hrid : r.id ∉ RetentionManager.deletion_ids config store now := by
        simpa using hrmem.2
      rw [hF] at hdid
      obtain ⟨x, hx, hxid⟩ := List.mem_map.mp (List.mem_toFinset.mp hdid)
      have hxstore : x ∈ store := hperm.mem_iff.mp (List.mem_of_mem_take hx)
      have hxd : x = d := List.inj_on_of_nodup_map hnd hxstore hd hxid
      have hrs : r ∈ RetentionManager.sortByTimestamp store :=
        hperm.mem_iff.mpr hrmem.1
      have hrdrop : r ∈ (RetentionManager.sortByTimestamp store).drop K := by
        have hrtd : r ∈ (RetentionManager.sortByTimestamp store).take K ++
            (RetentionManager.sortByTimestamp store).drop K := by
          rw [List.take_append_drop]; exact hrs
        rcases List.mem_append.mp hrtd with h | h
        · exact absurd (by
            rw [hF]
            exact List.mem_toFinset.mpr (List.mem_map.mpr ⟨r, h, rfl⟩)) hrid
        · exact h
      have hsorted : (RetentionManager.sortByTimestamp store).Sorted
          (fun a b => a.timestamp ≤ b.timestamp) :=
        List.sorted_insertionSort _ store
      have hdistinct : (RetentionManager.sortByTimestamp store).Pairwise
          (fun a b => a.timestamp ≠ b.timestamp) :=
        (hperm.pairwise_iff (fun h e => h e.symm)).mpr hdist
      rw [← List.take_append_drop K (RetentionManager.sortByTimestamp store)]
        at hsorted hdistinct
      have hle := (List.pairwise_append.mp hsorted).2.2 d (hxd ▸ hx) r hrdrop
      have hne := (List.pairwise_append.mp hdistinct).2.2 d (hxd ▸ hx) r hrdrop
      exact lt_of_le_of_ne hle hne
  · intro store2 hlen2
    have hids2 : RetentionManager.deletion_ids config store2 now = ∅ :=
      (RetentionManager.deletion_ids_empty_iff config store2 now).mpr
        ⟨RetentionManager.time_candidates_disabled config store2 now hten,
          RetentionManager.count_candidates_within config store2 M hmax hlen2⟩
    unfold RetentionManager.cleanup_logs
    rw [if_pos hids2]

theorem count_based_retention_correct_witness :
    (RetentionManager.cleanup_logs false cfgCountOnly [⟨1, 10⟩, ⟨2, 20⟩] 0 ""
      none).1.records_deleted = 1 :=
  (count_based_retention_correct cfgCountOnly [⟨1, 10⟩, ⟨2, 20⟩] 0 "" 1 1 rfl rfl
    (by decide) (by decide) (by decide) rfl (by decide)).1.1

theorem delete_batch_failure_amended_witness :
    RetentionManager._delete_records [⟨7, 0⟩] [7] (some 0) =
      (0, List.filter (fun e =>
        !decide (e.id ∈ (((RetentionManager.chunkList 1000 [7]).take 0).flatten)))
        [⟨7, 0⟩]) :=
  (delete_batch_failure_amended [⟨7, 0⟩] [7] 0 (by decide) (by decide)).2.2

/-! ## Claim C5 -/

namespace RetentionManager

lemma cleanup_dry_run_counts (config : RetentionConfig) (store : List LogEntry)
    (now : Int) (fmt : String) (failAt : Option Nat) :
    (cleanup_logs true config store now fmt failAt).1.records_deleted =
      (deletion_ids config store now).card ∧
    (cleanup_logs true config store now fmt failAt).1.time_based_deletions =
      (time_candidates config store now).length ∧
    (cleanup_logs true config store now fmt failAt).1.count_based_deletions =
      (count_candidates config store).length := by
  unfold cleanup_logs
  by_cases h : deletion_ids config store now = ∅
  · obtain ⟨h1, h2⟩ := (deletion_ids_empty_iff config store now).mp h
    simp [h, h1, h2]
  · simp [h]

lemma count_candidates_le (config : RetentionConfig) (store : List LogEntry)
    (h : (store.length : Int) ≤ config.count_based.max_entries) :
    count_candidates config store = [] := by
  unfold count_candidates _get_count_based_deletion_ids
  simp only [h, if_true]
  split <;> rfl

lemma count_candidates_length (config : RetentionConfig) (store : List LogEntry)
    (hmax : 0 ≤ config.count_based.max_entries)
    (hcen : config.count_based.enabled = true)
    (hgt : config.count_based.max_entries < (store.length : Int)) :
    ((count_candidates config store).length : Int) =
      (store.length : Int) - config.count_based.max_entries := by
  have hcond : ¬ ((store.length : Int) ≤ config.count_based.max_entries) := by omega
  unfold count_candidates _get_count_based_deletion_ids sortByTimestamp
  simp only [hcen, if_true, hcond, if_false, List.length_map, List.length_take,
    List.length_insertionSort]
  have h1 : ((store.length : Int) - config.count_based.max_entries).toNat ≤
      store.length := by omega
  rw [min_eq_left h1]
  omega

end RetentionManager

/-- C5 counterexample: with time-based retention enabled and a malformed
duration string, `get_retention_info` raises (the `parse_duration` call on
line 223 of `manager.py` is outside any `try`), while `cleanup(dry_run=True)`
succeeds and reports `records_deleted = 0` (its selection helper catches
the same exception) — so preview and action disagree on this
configuration, against the claim that they never do. -/
theorem preview_action_divergence_cex :
    (RetentionManager.get_retention_info cfgBadDuration [⟨1, 0⟩] 0).toOption = none ∧
    (RetentionManager.cleanup_logs true cfgBadDuration [⟨1, 0⟩] 0 ""
      none).1.records_deleted = 0 :=
  ⟨rfl, rfl⟩

/-- C5 amended: provided the configured duration parses whenever time-based
retention is enabled and `max_entries` is nonnegative (as the data-model
invariant requires), `get_retention_info` succeeds and its
`statistics.total_records_to_delete` equals the `records_deleted` of a
dry-run cleanup over the same state, with the two per-criterion candidate
counts likewise agreeing; with a malformed duration, `get_retention_info`
raises instead of returning a preview. -/
theorem preview_action_agree_amended :
    ∀ (config : RetentionConfig) (store : List LogEntry) (now : Int)
      (fmt : String) (failAt : Option Nat),
      (config.time_based.enabled = true →
        ∃ n, RetentionConfigManager.parse_duration config.time_based.duration =
          .ok n) →
      0 ≤ config.count_based.max_entries →
      ∃ stats, RetentionManager.get_retention_info config store now = .ok stats ∧
        stats.total_records_to_delete =
          (RetentionManager.cleanup_logs true config store now fmt
            failAt).1.records_deleted ∧
        stats.records_to_delete_time_based =
          (RetentionManager.cleanup_logs true config store now fmt
            failAt).1.time_based_deletions ∧
        stats.records_to_delete_count_based =
          ((RetentionManager.cleanup_logs true config store now fmt
            failAt).1.count_based_deletions : Int) := by
  intro config store now fmt failAt hparse hmax
  obtain ⟨hc1, hc2, hc3⟩ :=
    RetentionManager.cleanup_dry_run_counts config store now fmt failAt
  have hcountEq :
      (if config.count_based.enabled &&
          decide ((store.length : Int) > config.count_based.max_entries) then
        (store.length : Int) - config.count_based.max_entries
      else 0) = ((RetentionManager.count_candidates config store).length : Int) := by
    by_cases hcen : config.count_based.enabled = true
    · by_cases hgt : config.count_based.max_entries < (store.length : Int)
      · rw [RetentionManager.count_candidates_length config store hmax hcen hgt]
        simp [hcen, hgt]
      · rw [RetentionManager.count_candidates_le config store (by omega)]
        simp [hgt]
    · have hcen2 : config.count_based.enabled = false := by
        revert hcen; cases config.count_based.enabled <;> simp
      simp [RetentionManager.count_candidates, hcen2]
  cases hen : config.time_based.enabled with
  | true =>
    obtain ⟨n, hn⟩ := hparse hen
    have htc : RetentionManager.time_candidates config store now =
        (store.filter (fun e => decide (e.timestamp < now - (n : Int)))).map (·.id) := by
      unfold RetentionManager.time_candidates RetentionManager._get_time_based_deletion_ids
      simp [hen, hn]
    have hinfo : RetentionManager.get_retention_info config store now = .ok
        { total_records := store.length
          oldest_record := (store.map (·.timestamp)).min?
          newest_record := (store.map (·.timestamp)).max?
          records_to_delete_time_based :=
            (store.filter (fun e => decide (e.timestamp < now - (n : Int)))).length
          records_to_delete_count_based :=
            if config.count_based.enabled &&
                decide ((store.length : Int) > config.count_based.max_entries) then
              (store.length : Int) - config.count_based.max_entries
            else 0
          total_records_to_delete :=
            (RetentionManager.deletion_ids config store now).card } := by
      unfold RetentionManager.get_retention_info
      rw [hen]
      simp [hn, Except.map]
    refine ⟨_, hinfo, ?_, ?_, ?_⟩
    · exact hc1.symm
    · dsimp only
      rw [hc2, htc, List.length_map]
    · dsimp only
      rw [hc3]
      exact hcountEq
  | false =>
    have htc : RetentionManager.time_candidates config store now = [] := by
      simp [RetentionManager.time_candidates, hen]
    have hinfo : RetentionManager.get_retention_info config store now = .ok
        { total_records := store.length
          oldest_record := (store.map (·.timestamp)).min?
          newest_record := (store.map (·.timestamp)).max?
          records_to_delete_time_based := 0
          records_to_delete_count_based :=
            if config.count_based.enabled &&
                decide ((store.length : Int) > config.count_based.max_entries) then
              (store.length : Int) - config.count_based.max_entries
            else 0
          total_records_to_delete :=
            (RetentionManager.deletion_ids config store now).card } := by
      unfold RetentionManager.get_retention_info
      rw [hen]
      simp [Except.map]
    refine ⟨_, hinfo, ?_, ?_, ?_⟩
    · exact hc1.symm
    · dsimp only
      rw [hc2, htc]
      rfl
    · dsimp only
      rw [hc3]
      exact hcountEq

theorem preview_action_agree_amended_witness :
    (RetentionManager.get_retention_info RetentionConfigManager._get_default_config
      [] 0).toOption.isSome = true := by
  obtain ⟨stats, hok, -⟩ :=
    preview_action_agree_amended RetentionConfigManager._get_default_config [] 0 ""
      none (fun _ => ⟨604800, rfl⟩) (by decide)
  rw [hok]
  rfl

end PyLogTrail
